import Mathlib

/-!
Verification of the docker_model_runner_python_client repository.

The repository's two pieces of non-trivial logic are embedded here:

* the streaming response decoder `ChatCompletions._stream_response`
  (src/client.py lines 132-161, src/async_client.py lines 168-203), and
* the `tool_choice` emulation in `ChatCompletions.create`
  (src/client.py lines 87-113, src/async_client.py lines 111-143).

Python strings are modelled as `List Char` (a Python `str` is a sequence of
code points), byte strings as `List Nat`, and `dict`s as association lists.
-/

/-- Underlying character list of a Lean string literal; used to write
`List Char` constants readably. -/
def toL (s : String) : List Char := s.data

/-- Whitespace as recognised by Python's `str.strip()` (the code points for
which `str.isspace()` is true). -/
def isPySpace (c : Char) : Bool :=
  let n := c.toNat
  decide ((9 ≤ n ∧ n ≤ 13) ∨ n = 32 ∨ (28 ≤ n ∧ n ≤ 31) ∨ n = 133 ∨ n = 160 ∨
    n = 5760 ∨ (8192 ≤ n ∧ n ≤ 8202) ∨ n = 8232 ∨ n = 8233 ∨ n = 8239 ∨
    n = 8287 ∨ n = 12288)

/-- Python `str.strip()`: remove leading and trailing whitespace. -/
def pyStrip (l : List Char) : List Char :=
  ((l.dropWhile isPySpace).reverse.dropWhile isPySpace).reverse

/-- Prepend a character onto the first piece of a split (helper for
`splitNL`). -/
def consHead (c : Char) : List (List Char) → List (List Char)
  | [] => [[c]]
  | p :: ps => (c :: p) :: ps

/-- Python `str.split('\n')`: split a string on every newline.  Always
returns a non-empty list; the final element is the text after the last
newline (possibly empty). -/
def splitNL : List Char → List (List Char)
  | [] => [[]]
  | c :: rest => if c = '\n' then [] :: splitNL rest else consHead c (splitNL rest)

/-- Prepend a string onto the first piece of a split (used to state how
`splitNL` acts on an append). -/
def joinHead (x : List Char) : List (List Char) → List (List Char)
  | [] => [x]
  | p :: ps => (x ++ p) :: ps

/-! ## UTF-8 decoding with replacement

Models Python `bytes.decode('utf-8', errors='replace')` as used at
src/client.py line 140 / src/async_client.py line 182: each maximal valid
prefix of an ill-formed subsequence is replaced by one U+FFFD and decoding
continues at the offending byte (CPython's behaviour). -/

/-- The Unicode replacement character U+FFFD. -/
def repl : Char := Char.ofNat 0xFFFD

/-- Is `c` a UTF-8 continuation byte (`0x80..0xBF`)? -/
def isCont (c : Nat) : Bool := decide (0x80 ≤ c ∧ c ≤ 0xBF)

/-- Valid range check for the first continuation byte of a three-byte
sequence (restricted for lead bytes `0xE0` and `0xED`). -/
def cont3ok (b c : Nat) : Bool :=
  if b = 0xE0 then decide (0xA0 ≤ c ∧ c ≤ 0xBF)
  else if b = 0xED then decide (0x80 ≤ c ∧ c ≤ 0x9F)
  else isCont c

/-- Valid range check for the first continuation byte of a four-byte
sequence (restricted for lead bytes `0xF0` and `0xF4`). -/
def cont4ok (b c : Nat) : Bool :=
  if b = 0xF0 then decide (0x90 ≤ c ∧ c ≤ 0xBF)
  else if b = 0xF4 then decide (0x80 ≤ c ∧ c ≤ 0x8F)
  else isCont c

/-- Scalar value assembled from a two-byte UTF-8 sequence. -/
def char2 (b c1 : Nat) : Char := Char.ofNat ((b - 0xC0) * 0x40 + (c1 - 0x80))

/-- Scalar value assembled from a three-byte UTF-8 sequence. -/
def char3 (b c1 c2 : Nat) : Char :=
  Char.ofNat ((b - 0xE0) * 0x1000 + (c1 - 0x80) * 0x40 + (c2 - 0x80))

/-- Scalar value assembled from a four-byte UTF-8 sequence. -/
def char4 (b c1 c2 c3 : Nat) : Char :=
  Char.ofNat ((b - 0xF0) * 0x40000 + (c1 - 0x80) * 0x1000 +
    (c2 - 0x80) * 0x40 + (c3 - 0x80))

/-- One step of the UTF-8 decoder: given a lead byte `b` and the bytes after
it, produce the decoded character (or U+FFFD) and the bytes not consumed.
When a multi-byte sequence is interrupted by an invalid byte, decoding
resumes at the offending byte; when it is truncated at the end of the input,
the valid prefix is replaced by a single U+FFFD (CPython's behaviour). -/
def utf8Step (b : Nat) (rest : List Nat) : Char × List Nat :=
  if b < 0x80 then (Char.ofNat b, rest)
  else if b < 0xC2 then (repl, rest)
  else if b ≤ 0xDF then
    match rest with
    | [] => (repl, [])
    | c1 :: r1 => if isCont c1 then (char2 b c1, r1) else (repl, c1 :: r1)
  else if b ≤ 0xEF then
    match rest with
    | [] => (repl, [])
    | c1 :: r1 =>
      if cont3ok b c1 then
        match r1 with
        | [] => (repl, [])
        | c2 :: r2 => if isCont c2 then (char3 b c1 c2, r2) else (repl, c2 :: r2)
      else (repl, c1 :: r1)
  else if b ≤ 0xF4 then
    match rest with
    | [] => (repl, [])
    | c1 :: r1 =>
      if cont4ok b c1 then
        match r1 with
        | [] => (repl, [])
        | c2 :: r2 =>
          if isCont c2 then
            match r2 with
            | [] => (repl, [])
            | c3 :: r3 =>
              if isCont c3 then (char4 b c1 c2 c3, r3) else (repl, c3 :: r3)
          else (repl, c2 :: r2)
      else (repl, c1 :: r1)
  else (repl, rest)

/-- Fuelled driver for the UTF-8 decoder (each step consumes at least one
byte, so fuel equal to the length of the input always suffices). -/
def utf8DecodeLoop : Nat → List Nat → List Char
  | 0, _ => []
  | _, [] => []
  | f + 1, b :: rest => (utf8Step b rest).1 :: utf8DecodeLoop f (utf8Step b rest).2

/-- Python `bytes.decode('utf-8', errors='replace')`. -/
def utf8DecodeReplace (l : List Nat) : List Char := utf8DecodeLoop l.length l

/-- Canonical UTF-8 encoding of one scalar value. -/
def utf8EncodeChar (c : Char) : List Nat :=
  let n := c.toNat
  if n < 0x80 then [n]
  else if n < 0x800 then [0xC0 + n / 0x40, 0x80 + n % 0x40]
  else if n < 0x10000 then
    [0xE0 + n / 0x1000, 0x80 + (n / 0x40) % 0x40, 0x80 + n % 0x40]
  else
    [0xF0 + n / 0x40000, 0x80 + (n / 0x1000) % 0x40, 0x80 + (n / 0x40) % 0x40,
      0x80 + n % 0x40]

/-- Canonical UTF-8 encoding of a text. -/
def utf8Encode : List Char → List Nat
  | [] => []
  | c :: rest => utf8EncodeChar c ++ utf8Encode rest

/-! ## JSON values and `json.loads`

Models the Python standard-library `json` module as used by both clients
(`json.loads` at src/client.py lines 152, 158 and src/async_client.py lines
194, 200).  Numeric literals are kept as written; `NaN`, `Infinity` and
`-Infinity` are accepted like `json.loads` does by default. -/

/-- A parsed JSON value (also used to model the arbitrary Python values a
caller passes inside `**kwargs`, such as tool descriptors). -/
inductive Json where
  | null : Json
  | bool (b : Bool) : Json
  | num (lit : List Char) : Json
  | str (s : List Char) : Json
  | arr (elems : List Json) : Json
  | obj (fields : List (List Char × Json)) : Json

/-- JSON inter-token whitespace. -/
def jsonWs (c : Char) : Bool := c = ' ' || c = '\t' || c = '\n' || c = '\r'

/-- Skip JSON inter-token whitespace. -/
def skipWs (l : List Char) : List Char := l.dropWhile jsonWs

/-- Hexadecimal digit value. -/
def hexVal (c : Char) : Option Nat :=
  if '0' ≤ c ∧ c ≤ '9' then some (c.toNat - '0'.toNat)
  else if 'a' ≤ c ∧ c ≤ 'f' then some (c.toNat - 'a'.toNat + 10)
  else if 'A' ≤ c ∧ c ≤ 'F' then some (c.toNat - 'A'.toNat + 10)
  else none

/-- Parse exactly four hexadecimal digits (the `XXXX` of a `\uXXXX` escape). -/
def parseHex4 : List Char → Option (Nat × List Char)
  | a :: b :: c :: d :: r => do
    let va ← hexVal a
    let vb ← hexVal b
    let vc ← hexVal c
    let vd ← hexVal d
    some (((va * 16 + vb) * 16 + vc) * 16 + vd, r)
  | _ => none

/-- Translate a code unit from a `\uXXXX` escape into a character.  A lone
surrogate (which Python keeps as a surrogate code point in the resulting
`str`, something a Lean `Char` cannot hold) is mapped to U+FFFD. -/
def charOfUnit (n : Nat) : Char :=
  if 0xD800 ≤ n ∧ n ≤ 0xDFFF then repl else Char.ofNat n

/-- Parse the body of a JSON string literal after the opening quote,
returning the decoded text and the input after the closing quote.  Raw
control characters below U+0020 are rejected (strict mode), escape
sequences are decoded, and `\uXXXX\uXXXX` surrogate pairs are combined. -/
def parseStrBody : Nat → List Char → Option (List Char × List Char)
  | 0, _ => none
  | _, [] => none
  | f + 1, c :: r =>
    if c = '"' then some ([], r)
    else if c = '\\' then
      match r with
      | [] => none
      | e :: r2 =>
        if e = 'u' then
          match parseHex4 r2 with
          | none => none
          | some (n, r3) =>
            if 0xD800 ≤ n ∧ n ≤ 0xDBFF then
              match r3 with
              | '\\' :: 'u' :: r4 =>
                match parseHex4 r4 with
                | some (m, r5) =>
                  if 0xDC00 ≤ m ∧ m ≤ 0xDFFF then
                    (parseStrBody f r5).map (fun p =>
                      (Char.ofNat (0x10000 + (n - 0xD800) * 0x400 + (m - 0xDC00)) :: p.1, p.2))
                  else
                    (parseStrBody f ('\\' :: 'u' :: r4)).map (fun p => (repl :: p.1, p.2))
                | none => (parseStrBody f ('\\' :: 'u' :: r4)).map (fun p => (repl :: p.1, p.2))
              | _ => (parseStrBody f r3).map (fun p => (repl :: p.1, p.2))
            else
              (parseStrBody f r3).map (fun p => (charOfUnit n :: p.1, p.2))
        else
          match
            (if e = '"' then some '"'
             else if e = '\\' then some '\\'
             else if e = '/' then some '/'
             else if e = 'b' then some (Char.ofNat 8)
             else if e = 'f' then some (Char.ofNat 12)
             else if e = 'n' then some '\n'
             else if e = 'r' then some '\r'
             else if e = 't' then some '\t'
             else none) with
          | some d => (parseStrBody f r2).map (fun p => (d :: p.1, p.2))
          | none => none
    else if c.toNat < 0x20 then none
    else (parseStrBody f r).map (fun p => (c :: p.1, p.2))

/-- Decimal digit test. -/
def isDig (c : Char) : Bool := '0' ≤ c && c ≤ '9'

/-- Parse a JSON number token (the regex
`(-?(?:0|[1-9]\d*))(\.\d+)?([eE][-+]?\d+)?` used by Python's `json` lexer),
returning the matched literal and the rest of the input. -/
def parseNumber (l : List Char) : Option (List Char × List Char) :=
  let (negPart, l1) := match l with
    | '-' :: r => ([('-' : Char)], r)
    | _ => ([], l)
  match l1 with
  | [] => none
  | c :: r =>
    if c = '0' then
      let (fracPart, l2) := match r with
        | '.' :: r2 =>
          let ds := r2.takeWhile isDig
          if ds = [] then ([], r) else ('.' :: ds, r2.dropWhile isDig)
        | _ => ([], r)
      let (expPart, l3) := match l2 with
        | e :: r3 =>
          if e = 'e' ∨ e = 'E' then
            let (sgn, r4) := match r3 with
              | s :: r5 => if s = '+' ∨ s = '-' then ([s], r5) else ([], r3)
              | [] => ([], r3)
            let ds := r4.takeWhile isDig
            if ds = [] then ([], l2) else (e :: (sgn ++ ds), r4.dropWhile isDig)
          else ([], l2)
        | [] => ([], l2)
      some (negPart ++ ['0'] ++ fracPart ++ expPart, l3)
    else if isDig c then
      let intDs := r.takeWhile isDig
      let r1 := r.dropWhile isDig
      let (fracPart, l2) := match r1 with
        | '.' :: r2 =>
          let ds := r2.takeWhile isDig
          if ds = [] then ([], r1) else ('.' :: ds, r2.dropWhile isDig)
        | _ => ([], r1)
      let (expPart, l3) := match l2 with
        | e :: r3 =>
          if e = 'e' ∨ e = 'E' then
            let (sgn, r4) := match r3 with
              | s :: r5 => if s = '+' ∨ s = '-' then ([s], r5) else ([], r3)
              | [] => ([], r3)
            let ds := r4.takeWhile isDig
            if ds = [] then ([], l2) else (e :: (sgn ++ ds), r4.dropWhile isDig)
          else ([], l2)
        | [] => ([], l2)
      some (negPart ++ (c :: intDs) ++ fracPart ++ expPart, l3)
    else none

mutual

/-- Parse one JSON value (fuelled; the fuel is decremented on every descent
into an array element or object member, each of which consumes at least one
character, so fuel exceeding the input length always suffices). -/
def parseValue : Nat → List Char → Option (Json × List Char)
  | 0, _ => none
  | f + 1, l0 =>
    match skipWs l0 with
    | 'n' :: 'u' :: 'l' :: 'l' :: r => some (Json.null, r)
    | 't' :: 'r' :: 'u' :: 'e' :: r => some (Json.bool true, r)
    | 'f' :: 'a' :: 'l' :: 's' :: 'e' :: r => some (Json.bool false, r)
    | 'N' :: 'a' :: 'N' :: r => some (Json.num (toL "NaN"), r)
    | 'I' :: 'n' :: 'f' :: 'i' :: 'n' :: 'i' :: 't' :: 'y' :: r =>
      some (Json.num (toL "Infinity"), r)
    | '-' :: 'I' :: 'n' :: 'f' :: 'i' :: 'n' :: 'i' :: 't' :: 'y' :: r =>
      some (Json.num (toL "-Infinity"), r)
    | '"' :: r => (parseStrBody (r.length + 1) r).map (fun p => (Json.str p.1, p.2))
    | '[' :: r =>
      (match skipWs r with
       | ']' :: r2 => some (Json.arr [], r2)
       | _ => (parseArrTail f r).map (fun p => (Json.arr p.1, p.2)))
    | c :: r =>
      if c = Char.ofNat 0x7b then
        match skipWs r with
        | c2 :: r2 =>
          if c2 = Char.ofNat 0x7d then some (Json.obj [], r2)
          else (parseObjTail f r).map (fun p => (Json.obj p.1, p.2))
        | [] => none
      else parseNumber (c :: r) |>.map (fun p => (Json.num p.1, p.2))
    | [] => none

/-- Parse the members of a non-empty JSON array after the opening bracket. -/
def parseArrTail : Nat → List Char → Option (List Json × List Char)
  | 0, _ => none
  | f + 1, l => do
    let (v, r) ← parseValue f l
    match skipWs r with
    | ',' :: r2 => do
      let (vs, r3) ← parseArrTail f r2
      some (v :: vs, r3)
    | ']' :: r2 => some ([v], r2)
    | _ => none

/-- Parse the members of a non-empty JSON object after the opening brace. -/
def parseObjTail : Nat → List Char → Option (List (List Char × Json) × List Char)
  | 0, _ => none
  | f + 1, l =>
    match skipWs l with
    | '"' :: r => do
      let (k, r2) ← parseStrBody (r.length + 1) r
      match skipWs r2 with
      | ':' :: r3 => do
        let (v, r4) ← parseValue f r3
        match skipWs r4 with
        | ',' :: r5 => do
          let (kvs, r6) ← parseObjTail f r5
          some ((k, v) :: kvs, r6)
        | c :: r5 =>
          if c = Char.ofNat 0x7d then some ([(k, v)], r5) else none
        | [] => none
      | _ => none
    | _ => none

end

/-- Python `json.loads`: parse a complete JSON document, requiring the whole
input (up to surrounding whitespace) to be consumed. -/
def jsonParse (l : List Char) : Option Json := do
  let (v, r) ← parseValue (l.length + 1) l
  if skipWs r = [] then some v else none

/-! ## The stream decoder

Embeds `ChatCompletions._stream_response` (src/client.py lines 132-161) /
`AsyncChatCompletions._stream_response` (src/async_client.py lines 168-203).
The HTTP plumbing is abstracted away: the input is the list of byte chunks
produced by `response.iter_content(...)` / `response.content.iter_chunked(...)`
and the output is the list of JSON objects the generator yields.  The
decoder never raises: parse failures are swallowed by the
`except json.JSONDecodeError: continue` handlers. -/

/-- The literal prefix `data: ` checked at src/client.py line 147. -/
def dataPfx : List Char := toL "data: "

/-- The sentinel text `[DONE]` checked at src/client.py line 149. -/
def doneMark : List Char := toL "[DONE]"

/-- Outcome of processing one complete line (the body of the `for line in
lines` loop, src/client.py lines 144-161): terminate the generator, yield a
parsed object, or silently skip the line. -/
inductive LineOut where
  | done : LineOut
  | emit (j : Json) : LineOut
  | skip : LineOut

/-- Process one line exactly as src/client.py lines 144-161: strip it, skip
it if empty, strip a `data: ` prefix if present, terminate on `[DONE]`, and
otherwise try to parse JSON, skipping the line on failure. -/
def processLine (line : List Char) : LineOut :=
  let l := pyStrip line
  if l = [] then LineOut.skip
  else if dataPfx.isPrefixOf l then
    let ds := l.drop 6
    if ds = doneMark then LineOut.done
    else
      match jsonParse ds with
      | some j => LineOut.emit j
      | none => LineOut.skip
  else
    match jsonParse l with
    | some j => LineOut.emit j
    | none => LineOut.skip

/-- Process the complete lines split out of one chunk, in order, returning
the objects yielded and whether the `[DONE]` sentinel terminated the
generator (the `return` at src/client.py line 150 abandons the remaining
lines). -/
def processLines : List (List Char) → List Json × Bool
  | [] => ([], false)
  | l :: rest =>
    match processLine l with
    | LineOut.done => ([], true)
    | LineOut.emit j =>
      let r := processLines rest
      (j :: r.1, r.2)
    | LineOut.skip => processLines rest

/-- The chunk loop of `_stream_response` (src/client.py lines 137-161):
decode the chunk as UTF-8 with replacement, append to the carried buffer,
split on newlines, keep the final fragment as the new buffer (`buffer =
lines.pop()`), process the complete lines, and stop early on the sentinel.
When the byte stream is exhausted the remaining buffer is discarded. -/
def streamDecodeLoop : List Char → List (List Nat) → List Json
  | _, [] => []
  | buf, c :: rest =>
    let parts := splitNL (buf ++ utf8DecodeReplace c)
    let r := processLines parts.dropLast
    if r.2 then r.1 else r.1 ++ streamDecodeLoop (parts.getLastD []) rest

/-- The stream decoder: the sequence of JSON objects `_stream_response`
yields for a given sequence of byte chunks (buffer initially empty,
src/client.py line 137). -/
def streamDecode (chunks : List (List Nat)) : List Json := streamDecodeLoop [] chunks

/-- The complete lines the decoder splits out of one incoming chunk, given
the carried buffer (src/client.py lines 140-143). -/
def linesOf (buf : List Char) (c : List Nat) : List (List Char) :=
  (splitNL (buf ++ utf8DecodeReplace c)).dropLast

/-- Does this line terminate the stream?  True exactly when its stripped
form starts with `data: ` and the text after the prefix is `[DONE]`
(src/client.py lines 145-150). -/
def isDoneLine (line : List Char) : Bool :=
  decide (pyStrip line ≠ []) && dataPfx.isPrefixOf (pyStrip line) &&
    decide ((pyStrip line).drop 6 = doneMark)

/-! ## The request builder (`tool_choice` emulation)

Embeds `ChatCompletions.create` (src/client.py lines 87-113) /
`AsyncChatCompletions.create` (src/async_client.py lines 111-143) up to the
point where the payload is handed to the HTTP layer.  The Python call binds
`model`, `messages` and `tool_choice` as named parameters; everything else
lands in `**kwargs`, modelled as an association list of string keys to
values.  `data = {"model": model, "messages": messages, **kwargs}` (line 89)
is modelled by the `ChatPayload` structure, whose `rest` component holds the
kwargs entries.  Crucially, `data["messages"]` is the caller's own list
object, so the in-place mutation at line 101 is visible to the caller: the
second component of a successful result is the message list the caller's
`messages` variable refers to after the call. -/

/-- A chat message (the `Message` TypedDict, src/client.py lines 6-9). -/
structure Message where
  role : List Char
  content : List Char
deriving DecidableEq

/-- The `tool_choice` argument (`Literal["auto", "none", "always"]`,
src/client.py line 87). -/
inductive ToolChoice where
  | tcAuto : ToolChoice
  | tcNone : ToolChoice
  | tcAlways : ToolChoice
deriving DecidableEq

/-- A Python structural-access exception (`KeyError` from a missing dict
key, `TypeError` from subscripting a non-dict or joining non-strings). -/
inductive PyError where
  | keyError : PyError
  | typeError : PyError
deriving DecidableEq

/-- The payload transmitted as the JSON request body: the `model` and
`messages` entries plus the caller's kwargs entries (in order). -/
structure ChatPayload where
  model : List Char
  messages : List Message
  rest : List (List Char × Json)

/-- The keys of the transmitted payload dict. -/
def ChatPayload.keys (p : ChatPayload) : List (List Char) :=
  toL "model" :: toL "messages" :: p.rest.map Prod.fst

/-- Python dict lookup on an association list; a later duplicate key
shadows an earlier one, as in a dict built by `{**kwargs}`. -/
def jLookup (k : List Char) : List (List Char × Json) → Option Json
  | [] => none
  | kv :: rest =>
    match jLookup k rest with
    | some v => some v
    | none => if kv.1 = k then some kv.2 else none

/-- Python `x[k]` on a modelled value: `KeyError` when the key is missing
from a dict, `TypeError` when `x` is not a dict. -/
def jGetItem (j : Json) (k : List Char) : Except PyError Json :=
  match j with
  | Json.obj kvs =>
    match jLookup k kvs with
    | some v => Except.ok v
    | none => Except.error PyError.keyError
  | _ => Except.error PyError.typeError

/-- Python `dict.pop(k, None)`: remove the entry for `k`, if any. -/
def popKey (k : List Char) (kvs : List (List Char × Json)) : List (List Char × Json) :=
  kvs.filter (fun kv => decide (kv.1 ≠ k))

/-- Left-to-right traversal that stops at the first raised exception: the
evaluation order of the list comprehension at src/client.py line 96 and of
`", ".join(...)` at line 97. -/
def mapExcept {α β : Type} (f : α → Except PyError β) : List α → Except PyError (List β)
  | [] => Except.ok []
  | a :: as =>
    match f a with
    | Except.error e => Except.error e
    | Except.ok b =>
      match mapExcept f as with
      | Except.error e => Except.error e
      | Except.ok bs => Except.ok (b :: bs)

/-- The expression `tool["function"]["name"]` from src/client.py line 96 /
src/async_client.py line 126. -/
def toolNameJson (t : Json) : Except PyError Json := do
  jGetItem (← jGetItem t (toL "function")) (toL "name")

/-- `", ".join(...)` requires every element to be a `str`; a non-string
raises `TypeError`. -/
def requireStr : Json → Except PyError (List Char)
  | Json.str s => Except.ok s
  | _ => Except.error PyError.typeError

/-- `", ".join(tool_names)` (src/client.py line 97). -/
def joinComma (names : List (List Char)) : List Char :=
  List.intercalate (toL ", ") names

/-- The f-string appended to the last user message (src/client.py
line 101): `" Use tool {tool_names_str} to respond strictly use tool."`. -/
def toolSuffix (names : List (List Char)) : List Char :=
  toL " Use tool " ++ joinComma names ++ toL " to respond strictly use tool."

/-- The loop `for msg in reversed(data["messages"])` (src/client.py lines
99-102) on the reversed list: append `suf` to the content of the first
user-role message and stop. -/
def appendRev (suf : List Char) : List Message → List Message
  | [] => []
  | m :: rest =>
    if m.role = toL "user" then { m with content := m.content ++ suf } :: rest
    else m :: appendRev suf rest

/-- Append `suf` to the content of the last user-role message of `ms`
(scanning from the end), leaving all other messages unchanged. -/
def appendToLastUser (suf : List Char) (ms : List Message) : List Message :=
  (appendRev suf ms.reverse).reverse

/-- The last message whose role is `user`, scanning from the end (the
message selected by the loop at src/client.py lines 99-102). -/
def lastUser (ms : List Message) : Option Message :=
  ms.reverse.find? (fun m => decide (m.role = toL "user"))

/-- `ChatCompletions.create` up to transmission (src/client.py lines
87-113): build `data`, apply the `tool_choice` emulation, and always pop
`tool_choice`.  A `.ok (payload, msgs)` result is the transmitted payload
together with the caller's message list as it stands after the call (the
same object, mutated in place by line 101); a `.error` result is an
exception raised before any request is transmitted.  Iterating a
non-list `tools` value is modelled as `TypeError`. -/
def createChat (model : List Char) (messages : List Message)
    (tc : Option ToolChoice) (kwargs : List (List Char × Json)) :
    Except PyError (ChatPayload × List Message) :=
  match tc with
  | some ToolChoice.tcNone =>
    Except.ok (⟨model, messages, popKey (toL "tool_choice") (popKey (toL "tools") kwargs)⟩,
      messages)
  | some ToolChoice.tcAlways =>
    match jLookup (toL "tools") kwargs with
    | some (Json.arr ts) =>
      match mapExcept toolNameJson ts with
      | Except.error e => Except.error e
      | Except.ok namesJ =>
        match mapExcept requireStr namesJ with
        | Except.error e => Except.error e
        | Except.ok names =>
          let messages2 := appendToLastUser (toolSuffix names) messages
          Except.ok (⟨model, messages2, popKey (toL "tool_choice") kwargs⟩, messages2)
    | some _ => Except.error PyError.typeError
    | none =>
      Except.ok (⟨model, messages, popKey (toL "tool_choice") kwargs⟩, messages)
  | some ToolChoice.tcAuto =>
    Except.ok (⟨model, messages, popKey (toL "tool_choice") kwargs⟩, messages)
  | none =>
    Except.ok (⟨model, messages, popKey (toL "tool_choice") kwargs⟩, messages)

/-! ## The asynchronous client

src/async_client.py duplicates the request-builder and stream-decoder logic
of src/client.py line for line (`AsyncChatCompletions.create`, lines
111-143, and `AsyncChatCompletions._stream_response`, lines 168-203); the
differences are confined to the HTTP transport (aiohttp with suspension
points instead of requests).  The duplicated logic is embedded separately
here so that the equivalence of the two clients is a theorem rather than a
modelling assumption.  Data types and Python built-ins (`json.loads`,
`str.split`, `str.strip`, `bytes.decode`, dict operations) are shared, as
both files share the same interpreter and standard library. -/

namespace Async

/-- The expression `tool["function"]["name"]` from src/async_client.py
line 126. -/
def toolNameJson (t : Json) : Except PyError Json := do
  jGetItem (← jGetItem t (toL "function")) (toL "name")

/-- The loop `for msg in reversed(data["messages"])` (src/async_client.py
lines 129-132) on the reversed list. -/
def appendRev (suf : List Char) : List Message → List Message
  | [] => []
  | m :: rest =>
    if m.role = toL "user" then { m with content := m.content ++ suf } :: rest
    else m :: appendRev suf rest

/-- Append `suf` to the content of the last user-role message. -/
def appendToLastUser (suf : List Char) (ms : List Message) : List Message :=
  (Async.appendRev suf ms.reverse).reverse

/-- `AsyncChatCompletions.create` up to transmission (src/async_client.py
lines 111-143), with the same conventions as `createChat`. -/
def createChat (model : List Char) (messages : List Message)
    (tc : Option ToolChoice) (kwargs : List (List Char × Json)) :
    Except PyError (ChatPayload × List Message) :=
  match tc with
  | some ToolChoice.tcNone =>
    Except.ok (⟨model, messages, popKey (toL "tool_choice") (popKey (toL "tools") kwargs)⟩,
      messages)
  | some ToolChoice.tcAlways =>
    match jLookup (toL "tools") kwargs with
    | some (Json.arr ts) =>
      match mapExcept Async.toolNameJson ts with
      | Except.error e => Except.error e
      | Except.ok namesJ =>
        match mapExcept requireStr namesJ with
        | Except.error e => Except.error e
        | Except.ok names =>
          let messages2 := Async.appendToLastUser (toolSuffix names) messages
          Except.ok (⟨model, messages2, popKey (toL "tool_choice") kwargs⟩, messages2)
    | some _ => Except.error PyError.typeError
    | none =>
      Except.ok (⟨model, messages, popKey (toL "tool_choice") kwargs⟩, messages)
  | some ToolChoice.tcAuto =>
    Except.ok (⟨model, messages, popKey (toL "tool_choice") kwargs⟩, messages)
  | none =>
    Except.ok (⟨model, messages, popKey (toL "tool_choice") kwargs⟩, messages)

/-- Process one line exactly as src/async_client.py lines 186-203. -/
def processLine (line : List Char) : LineOut :=
  let l := pyStrip line
  if l = [] then LineOut.skip
  else if dataPfx.isPrefixOf l then
    let ds := l.drop 6
    if ds = doneMark then LineOut.done
    else
      match jsonParse ds with
      | some j => LineOut.emit j
      | none => LineOut.skip
  else
    match jsonParse l with
    | some j => LineOut.emit j
    | none => LineOut.skip

/-- Process the complete lines split out of one chunk (src/async_client.py
lines 186-203), with the early `return` at line 192. -/
def processLines : List (List Char) → List Json × Bool
  | [] => ([], false)
  | l :: rest =>
    match Async.processLine l with
    | LineOut.done => ([], true)
    | LineOut.emit j =>
      let r := Async.processLines rest
      (j :: r.1, r.2)
    | LineOut.skip => Async.processLines rest

/-- The chunk loop of `AsyncChatCompletions._stream_response`
(src/async_client.py lines 179-203). -/
def streamDecodeLoop : List Char → List (List Nat) → List Json
  | _, [] => []
  | buf, c :: rest =>
    let parts := splitNL (buf ++ utf8DecodeReplace c)
    let r := Async.processLines parts.dropLast
    if r.2 then r.1 else r.1 ++ Async.streamDecodeLoop (parts.getLastD []) rest

/-- The asynchronous stream decoder (src/async_client.py lines 168-203). -/
def streamDecode (chunks : List (List Nat)) : List Json :=
  Async.streamDecodeLoop [] chunks

end Async

/-! ## Helper lemmas -/

theorem processLines_cons_skip (l : List Char) (xs : List (List Char))
    (h : processLine l = LineOut.skip) : processLines (l :: xs) = processLines xs := by
  simp [processLines, h]

theorem processLines_cons_done (l : List Char) (xs : List (List Char))
    (h : processLine l = LineOut.done) : processLines (l :: xs) = ([], true) := by
  simp [processLines, h]

theorem processLines_append (xs ys : List (List Char)) :
    processLines (xs ++ ys) =
      if (processLines xs).2 then processLines xs
      else ((processLines xs).1 ++ (processLines ys).1, (processLines ys).2) := by
  induction xs with
  | nil => simp [processLines]
  | cons x xs ih =>
    cases h : processLine x with
    | done => simp [processLines, h]
    | emit j =>
      simp only [List.cons_append, processLines, h, List.append_eq]
      rw [ih]
      by_cases h2 : (processLines xs).2 <;> simp [h2]
    | skip => simpa [processLines, h] using ih

theorem notMem_map_fst_popKey (k : List Char) (kvs : List (List Char × Json)) :
    k ∉ (popKey k kvs).map Prod.fst := by
  intro hmem
  rw [List.mem_map] at hmem
  obtain ⟨kv, h1, h2⟩ := hmem
  rw [popKey, List.mem_filter] at h1
  have := h1.2
  simp only [decide_eq_true_eq] at this
  exact this h2

theorem exists_error_mapExcept {α β : Type} (f : α → Except PyError β) (ts : List α) (t : α)
    (hmem : t ∈ ts) (he : ∃ e, f t = Except.error e) :
    ∃ e, mapExcept f ts = Except.error e := by
  induction ts with
  | nil => cases hmem
  | cons a as ih =>
    cases hfa : f a with
    | error e => exact ⟨e, by simp [mapExcept, hfa]⟩
    | ok b =>
      rcases List.mem_cons.mp hmem with rfl | hmem'
      · obtain ⟨e, he⟩ := he
        rw [hfa] at he
        cases he
      · obtain ⟨e, hmapM⟩ := ih hmem'
        exact ⟨e, by simp [mapExcept, hfa, hmapM]⟩

theorem mapExcept_ok_of_forall₂ (ts : List Json) (names : List (List Char))
    (h : List.Forall₂ (fun t s => toolNameJson t = Except.ok (Json.str s)) ts names) :
    mapExcept toolNameJson ts = Except.ok (names.map Json.str) ∧
    mapExcept requireStr (names.map Json.str) = Except.ok names := by
  induction h with
  | nil => exact ⟨rfl, rfl⟩
  | cons h1 h2 ih =>
    refine ⟨?_, ?_⟩
    · rw [mapExcept, h1, ih.1]
      rfl
    · simp only [List.map_cons, mapExcept, requireStr, ih.2]

theorem find?_appendRev (suf : List Char) (l : List Message) (m0 : Message)
    (h : l.find? (fun m => decide (m.role = toL "user")) = some m0) :
    (appendRev suf l).find? (fun m => decide (m.role = toL "user")) =
      some { m0 with content := m0.content ++ suf } := by
  induction l with
  | nil => simp [List.find?] at h
  | cons m rest ih =>
    by_cases hr : m.role = toL "user"
    · rw [List.find?_cons_of_pos _ (by simp [hr])] at h
      injection h with h
      subst h
      simp [appendRev, hr, List.find?_cons_of_pos]
    · rw [List.find?_cons_of_neg _ (by simp [hr])] at h
      rw [appendRev]
      rw [if_neg hr]
      rw [List.find?_cons_of_neg _ (by simp [hr])]
      exact ih h

theorem lastUser_appendToLastUser (suf : List Char) (ms : List Message) (m0 : Message)
    (h : lastUser ms = some m0) :
    lastUser (appendToLastUser suf ms) = some { m0 with content := m0.content ++ suf } := by
  unfold lastUser appendToLastUser
  rw [List.reverse_reverse]
  exact find?_appendRev suf ms.reverse m0 h

/-! ## Claims about the request builder -/

/-- C7: for every chat-completion create call with `tool_choice="none"`, the
transmitted payload contains no `tools` key — even when the caller supplied
a (possibly non-empty) `tools` list in kwargs — and no `tool_choice` key
(src/client.py lines 92-93 and 107). -/
theorem C7_none_removes_tools (model : List Char) (msgs : List Message)
    (kwargs : List (List Char × Json)) :
    ∃ p : ChatPayload,
      createChat model msgs (some ToolChoice.tcNone) kwargs = Except.ok (p, msgs) ∧
      toL "tools" ∉ p.keys ∧ toL "tool_choice" ∉ p.keys := by
  refine ⟨_, rfl, ?_, ?_⟩
  · intro hmem
    simp only [ChatPayload.keys, List.mem_cons] at hmem
    rcases hmem with h | h | h
    · exact absurd h (by decide)
    · exact absurd h (by decide)
    · rw [List.mem_map] at h
      obtain ⟨kv, h1, h2⟩ := h
      rw [popKey] at h1
      have h3 : kv ∈ popKey (toL "tools") kwargs := List.mem_of_mem_filter h1
      rw [popKey, List.mem_filter] at h3
      have h4 := h3.2
      simp only [decide_eq_true_eq] at h4
      exact h4 h2
  · intro hmem
    simp only [ChatPayload.keys, List.mem_cons] at hmem
    rcases hmem with h | h | h
    · exact absurd h (by decide)
    · exact absurd h (by decide)
    · exact notMem_map_fst_popKey _ _ h

/-- C8: with `tool_choice="always"` and a tools list containing a
descriptor on which `tool["function"]["name"]` fails (for example an
MCP-shaped descriptor with no `function` key), `create` raises a
structural-access error (`KeyError`/`TypeError`) before any payload is
produced, hence before any request is transmitted (src/client.py lines
95-96). -/
theorem C8_missing_function_name_raises (model : List Char) (msgs : List Message)
    (kwargs : List (List Char × Json)) (ts : List Json) (t : Json)
    (htools : jLookup (toL "tools") kwargs = some (Json.arr ts))
    (hmem : t ∈ ts) (hbad : ∃ e, toolNameJson t = Except.error e) :
    ∃ e, createChat model msgs (some ToolChoice.tcAlways) kwargs = Except.error e := by
  obtain ⟨e, hmap⟩ := exists_error_mapExcept toolNameJson ts t hmem hbad
  exact ⟨e, by simp only [createChat, htools, hmap]⟩

/-- Witness for C8 at a concrete input: an MCP-shaped tool descriptor
(`{"type": "mcp", "server_label": "calc"}`) has no `function` key, so the
call fails. -/
theorem C8_witness :
    ∃ e, createChat (toL "m") [⟨toL "user", toL "hi"⟩] (some ToolChoice.tcAlways)
      [(toL "tools", Json.arr [Json.obj [(toL "type", Json.str (toL "mcp")),
        (toL "server_label", Json.str (toL "calc"))]])] = Except.error e :=
  C8_missing_function_name_raises (toL "m") [⟨toL "user", toL "hi"⟩] _ _ _
    rfl (List.mem_singleton.mpr rfl) ⟨PyError.keyError, rfl⟩

/-- C2: with `tool_choice="always"`, a non-empty tools list whose
descriptors all have a string `function.name`, and at least one user
message, the transmitted payload's last user message (scanning from the
end) carries its original content followed by the literal suffix
`" Use tool {names} to respond strictly use tool."` with the names joined
by `", "` in list order, and the payload has no `tool_choice` key
(src/client.py lines 94-102 and 107). -/
theorem C2_always_appends_suffix (model : List Char) (msgs : List Message)
    (kwargs : List (List Char × Json)) (ts : List Json) (names : List (List Char))
    (m0 : Message)
    (htools : jLookup (toL "tools") kwargs = some (Json.arr ts))
    (_hne : ts ≠ [])
    (hnames : List.Forall₂ (fun t s => toolNameJson t = Except.ok (Json.str s)) ts names)
    (huser : lastUser msgs = some m0) :
    ∃ p : ChatPayload,
      createChat model msgs (some ToolChoice.tcAlways) kwargs = Except.ok (p, p.messages) ∧
      lastUser p.messages = some { m0 with content := m0.content ++ toolSuffix names } ∧
      toL "tool_choice" ∉ p.keys := by
  obtain ⟨h1, h2⟩ := mapExcept_ok_of_forall₂ ts names hnames
  refine ⟨⟨model, appendToLastUser (toolSuffix names) msgs, popKey (toL "tool_choice") kwargs⟩,
    ?_, ?_, ?_⟩
  · simp only [createChat, htools, h1, h2]
  · exact lastUser_appendToLastUser _ _ _ huser
  · intro hmem
    simp only [ChatPayload.keys, List.mem_cons] at hmem
    rcases hmem with h | h | h
    · exact absurd h (by decide)
    · exact absurd h (by decide)
    · exact notMem_map_fst_popKey _ _ h

/-- Witness for C2 at a concrete input: one user message `"hi"` and one
OpenAI-shaped tool named `search`. -/
theorem C2_witness :
    ∃ p : ChatPayload,
      createChat (toL "m") [⟨toL "user", toL "hi"⟩] (some ToolChoice.tcAlways)
        [(toL "tools", Json.arr [Json.obj [(toL "function",
          Json.obj [(toL "name", Json.str (toL "search"))])]])] =
        Except.ok (p, p.messages) ∧
      lastUser p.messages =
        some ⟨toL "user", toL "hi" ++ toolSuffix [toL "search"]⟩ ∧
      toL "tool_choice" ∉ p.keys :=
  C2_always_appends_suffix (toL "m") [⟨toL "user", toL "hi"⟩] _ _ [toL "search"]
    ⟨toL "user", toL "hi"⟩ rfl (List.cons_ne_nil _ _)
    (List.Forall₂.cons rfl List.Forall₂.nil) rfl

/-- C4: the tool_choice emulation is NOT pure with respect to caller-owned
inputs — `msg["content"] += ...` (src/client.py line 101) mutates the
message object inside the caller's own list, so after the call the caller's
messages no longer hold their original content.  This theorem evaluates
the embedded code at a concrete input and exhibits the mutation the claim
says must not happen. -/
theorem C4_create_mutates_caller_messages :
    ∃ (p : ChatPayload) (msgs2 : List Message),
      createChat (toL "m") [⟨toL "user", toL "hi"⟩] (some ToolChoice.tcAlways)
        [(toL "tools", Json.arr [Json.obj [(toL "function",
          Json.obj [(toL "name", Json.str (toL "search"))])]])] = Except.ok (p, msgs2) ∧
      msgs2.map Message.content = [toL "hi Use tool search to respond strictly use tool."] ∧
      [Message.mk (toL "user") (toL "hi")].map Message.content = [toL "hi"] ∧
      msgs2.map Message.content ≠ [Message.mk (toL "user") (toL "hi")].map Message.content :=
  ⟨_, _, rfl, rfl, rfl, by decide⟩

/-! ## Claims about the stream decoder -/

theorem processLine_eq_done_iff (l : List Char) :
    processLine l = LineOut.done ↔ isDoneLine l = true := by
  simp only [processLine, isDoneLine]
  by_cases h1 : pyStrip l = []
  · simp [h1]
  · by_cases h2 : dataPfx.isPrefixOf (pyStrip l) = true
    · by_cases h3 : (pyStrip l).drop 6 = doneMark
      · simp [h1, h2, h3]
      · simp only [if_neg h1, if_pos h2, if_neg h3]
        cases jsonParse ((pyStrip l).drop 6) <;> simp [h1, h2, h3]
    · simp only [if_neg h1, if_neg h2]
      cases jsonParse (pyStrip l) <;> simp [h1, h2]

theorem processLine_of_isDoneLine (l : List Char) (h : isDoneLine l = true) :
    processLine l = LineOut.done :=
  (processLine_eq_done_iff l).mpr h

/-- C10: a line whose trimmed form is exactly `[DONE]` without the
`data: ` prefix is not a terminator: it fails JSON parsing and is silently
dropped, decoding continues with the remaining lines, and only a line
whose stripped form starts with `data: ` followed by exactly `[DONE]`
terminates the sequence (src/client.py lines 144-161). -/
theorem C10_bare_done_not_sentinel (line : List Char) (h : pyStrip line = toL "[DONE]") :
    processLine line = LineOut.skip ∧
    (∀ pre post : List (List Char),
      processLines (pre ++ line :: post) = processLines (pre ++ post)) ∧
    (∀ l : List Char, processLine l = LineOut.done ↔ isDoneLine l = true) := by
  have hskip : processLine line = LineOut.skip := by
    simp only [processLine, h]
    rfl
  refine ⟨hskip, ?_, processLine_eq_done_iff⟩
  intro pre post
  rw [processLines_append, processLines_append, processLines_cons_skip line post hskip]

/-- Witness for C10 at a concrete input: the bare `[DONE]` line is skipped
and the following valid JSON line is still processed. -/
theorem C10_witness :
    processLine (toL "[DONE]") = LineOut.skip ∧
    processLines [toL "[DONE]", toL "data: \x7b\"a\":1\x7d"] =
      processLines [toL "data: \x7b\"a\":1\x7d"] := by
  obtain ⟨h1, h2, _⟩ := C10_bare_done_not_sentinel (toL "[DONE]") rfl
  exact ⟨h1, h2 [] [toL "data: \x7b\"a\":1\x7d"]⟩

/-- C3: once a processed line's trimmed form starts with `data: ` and the
remainder is exactly `[DONE]`, the decoder terminates immediately: nothing
more is emitted, neither from the lines already split out of the same chunk
(`post`) nor from any later chunk (`rest`) — the early `return` at
src/client.py line 150. -/
theorem C3_done_terminates (line : List Char) (hdone : isDoneLine line = true) :
    (∀ pre post : List (List Char),
      processLines (pre ++ line :: post) = ((processLines pre).1, true)) ∧
    (∀ (buf : List Char) (c : List Nat) (rest : List (List Nat))
      (pre post : List (List Char)),
      linesOf buf c = pre ++ line :: post →
      streamDecodeLoop buf (c :: rest) = (processLines pre).1) := by
  have hd : processLine line = LineOut.done := processLine_of_isDoneLine line hdone
  have hA : ∀ pre post : List (List Char),
      processLines (pre ++ line :: post) = ((processLines pre).1, true) := by
    intro pre post
    rw [processLines_append, processLines_cons_done line post hd]
    by_cases h2 : (processLines pre).2
    · simp [h2, Prod.ext_iff]
    · simp [h2]
  refine ⟨hA, ?_⟩
  intro buf c rest pre post hsplit
  simp only [streamDecodeLoop]
  rw [show (splitNL (buf ++ utf8DecodeReplace c)).dropLast = pre ++ line :: post from hsplit,
    hA pre post]
  rfl

/-- Witness for C3 at a concrete input: everything after the sentinel —
a further line in the same chunk and a whole further chunk — is dropped. -/
theorem C3_witness :
    streamDecodeLoop []
      [utf8Encode (toL "data: \x7b\"id\":1\x7d\ndata: [DONE]\ndata: \x7b\"id\":2\x7d\n"),
        utf8Encode (toL "data: \x7b\"id\":3\x7d\n")] =
      (processLines [toL "data: \x7b\"id\":1\x7d"]).1 :=
  (C3_done_terminates (toL "data: [DONE]") rfl).2 [] _ _
    [toL "data: \x7b\"id\":1\x7d"] [toL "data: \x7b\"id\":2\x7d"] rfl

/-- C5 counterexample: the line `data: [DONE]` satisfies the claim's
hypotheses — non-empty after trimming and, after `data: ` prefix
stripping, not parseable as JSON — yet the decoder does not continue with
the subsequent lines: it terminates, dropping a following valid JSON
line.  So the claim as stated is false for the sentinel line. -/
theorem C5_counterexample :
    pyStrip (toL "data: [DONE]") ≠ [] ∧
    jsonParse ((pyStrip (toL "data: [DONE]")).drop 6) = none ∧
    processLines [toL "data: [DONE]", toL "data: \x7b\"ok\":true\x7d"] ≠
      processLines [toL "data: \x7b\"ok\":true\x7d"] := by
  refine ⟨by decide, rfl, ?_⟩
  intro h
  have h1 : processLines [toL "data: [DONE]", toL "data: \x7b\"ok\":true\x7d"] =
      (([] : List Json), true) := rfl
  have h2 : processLines [toL "data: \x7b\"ok\":true\x7d"] =
      ([Json.obj [(toL "ok", Json.bool true)]], false) := rfl
  rw [h1, h2] at h
  exact absurd (congrArg Prod.snd h) (by decide)

/-- C5 (amended): for every line that is non-empty after trimming and
that, after optional `data: ` prefix stripping, fails to parse as JSON —
excepting a prefixed line whose remainder is exactly `[DONE]`, which
terminates the stream instead — the decoder emits nothing for the line,
raises nothing (the model is total; the source catches
`json.JSONDecodeError` and continues), and processes the subsequent lines
exactly as if the line were absent (src/client.py lines 151-161). -/
theorem C5_unparsable_line_skipped (line : List Char) (pre post : List (List Char))
    (hne : pyStrip line ≠ [])
    (hparse : if dataPfx.isPrefixOf (pyStrip line)
      then (pyStrip line).drop 6 ≠ doneMark ∧ jsonParse ((pyStrip line).drop 6) = none
      else jsonParse (pyStrip line) = none) :
    processLines (pre ++ line :: post) = processLines (pre ++ post) := by
  have hskip : processLine line = LineOut.skip := by
    simp only [processLine, if_neg hne]
    by_cases h2 : dataPfx.isPrefixOf (pyStrip line) = true
    · rw [if_pos h2] at hparse
      rw [if_pos h2, if_neg hparse.1, hparse.2]
    · rw [if_neg h2] at hparse
      rw [if_neg h2, hparse]
  rw [processLines_append, processLines_append, processLines_cons_skip line post hskip]

/-- Witness for the amended C5 at a concrete input: a malformed line
(`not json`) is dropped and the stream continues. -/
theorem C5_witness :
    processLines [toL "not json", toL "data: \x7b\"ok\":true\x7d"] =
      processLines [toL "data: \x7b\"ok\":true\x7d"] :=
  C5_unparsable_line_skipped (toL "not json") [] [toL "data: \x7b\"ok\":true\x7d"]
    (by decide) (by rw [if_neg (by decide)]; rfl)

theorem splitNL_ne_nil (l : List Char) : splitNL l ≠ [] := by
  induction l with
  | nil => simp [splitNL]
  | cons c rest ih =>
    rw [splitNL]
    by_cases h : c = '\n'
    · simp [h]
    · rw [if_neg h]
      cases hs : splitNL rest <;> simp [consHead]

theorem nl_notMem_splitNL (l : List Char) (p : List Char) (hp : p ∈ splitNL l) :
    ('\n') ∉ p := by
  induction l generalizing p with
  | nil =>
    rw [splitNL, List.mem_singleton] at hp
    simp [hp]
  | cons c rest ih =>
    rw [splitNL] at hp
    by_cases h : c = '\n'
    · rw [if_pos h, List.mem_cons] at hp
      rcases hp with rfl | hp
      · simp
      · exact ih p hp
    · rw [if_neg h] at hp
      cases hs : splitNL rest with
      | nil => exact absurd hs (splitNL_ne_nil rest)
      | cons q qs =>
        rw [hs, consHead, List.mem_cons] at hp
        rcases hp with rfl | hp
        · intro hmem
          rcases List.mem_cons.mp hmem with rfl | hmem
          · exact h rfl
          · exact ih q (hs ▸ List.mem_cons_self q qs) hmem
        · exact ih p (hs ▸ List.mem_cons_of_mem q hp)

theorem splitNL_of_no_nl (l : List Char) (h : ('\n') ∉ l) : splitNL l = [l] := by
  induction l with
  | nil => rfl
  | cons c rest ih =>
    have hc : ¬c = '\n' := by
      rintro rfl
      exact h (List.mem_cons_self _ _)
    rw [splitNL, if_neg hc, ih (fun hm => h (List.mem_cons_of_mem c hm))]
    rfl

theorem getLastD_mem_of_ne_nil {α : Type} (l : List α) (d : α) (h : l ≠ []) :
    l.getLastD d ∈ l := by
  rw [List.getLastD_eq_getLast?, List.getLast?_eq_getLast l h]
  exact List.getLast_mem h

theorem nl_notMem_splitNL_getLastD (l : List Char) :
    ('\n') ∉ (splitNL l).getLastD [] :=
  nl_notMem_splitNL l _ (getLastD_mem_of_ne_nil _ _ (splitNL_ne_nil l))

/-- C6: when the byte stream is exhausted, trailing buffered content not
terminated by a newline is discarded, never parsed and never emitted:
delivering an extra final chunk whose decoded text contains no newline
leaves the emitted sequence unchanged (`buffer = lines.pop()` at
src/client.py line 143 retains it, and the generator ends at line 138
without processing it). -/
theorem C6_trailing_buffer_discarded (chunks : List (List Nat)) (t : List Nat)
    (ht : ('\n') ∉ utf8DecodeReplace t) :
    streamDecode (chunks ++ [t]) = streamDecode chunks := by
  suffices h : ∀ (buf : List Char), ('\n') ∉ buf →
      streamDecodeLoop buf (chunks ++ [t]) = streamDecodeLoop buf chunks by
    exact h [] (by simp)
  induction chunks with
  | nil =>
    intro buf hbuf
    simp only [List.nil_append, streamDecodeLoop]
    rw [splitNL_of_no_nl (buf ++ utf8DecodeReplace t)
      (fun hm => (List.mem_append.mp hm).elim hbuf ht)]
    simp [processLines, streamDecodeLoop]
  | cons c chunks ih =>
    intro buf hbuf
    simp only [List.cons_append, streamDecodeLoop]
    by_cases h2 : (processLines (splitNL (buf ++ utf8DecodeReplace c)).dropLast).2
    · simp [h2]
    · simp only [h2, if_false, Bool.false_eq_true, List.append_eq]
      rw [ih _ (nl_notMem_splitNL_getLastD _)]

/-- Witness for C6 at a concrete input: a trailing chunk holding an
unterminated line `data: {"b":2` contributes nothing. -/
theorem C6_witness :
    streamDecode ([utf8Encode (toL "data: \x7b\"a\":1\x7d\n")] ++
        [utf8Encode (toL "data: \x7b\"b\":2")]) =
      streamDecode [utf8Encode (toL "data: \x7b\"a\":1\x7d\n")] :=
  C6_trailing_buffer_discarded [utf8Encode (toL "data: \x7b\"a\":1\x7d\n")]
    (utf8Encode (toL "data: \x7b\"b\":2")) (by decide)

/-! ## Chunk-boundary (in)dependence of the decoder (C1) -/

theorem utf8Step_len (b : Nat) (rest : List Nat) :
    (utf8Step b rest).2.length ≤ rest.length := by
  rw [utf8Step.eq_def]
  repeat' split
  all_goals simp_all
  all_goals omega

theorem utf8DecodeLoop_fuel_eq : ∀ (f1 : Nat) (l : List Nat) (f2 : Nat),
    l.length ≤ f1 → l.length ≤ f2 → utf8DecodeLoop f1 l = utf8DecodeLoop f2 l := by
  intro f1
  induction f1 with
  | zero =>
    intro l f2 h1 _
    rw [List.length_eq_zero.mp (Nat.le_zero.mp h1)]
    cases f2 <;> rfl
  | succ f ih =>
    intro l f2 h1 h2
    cases l with
    | nil => cases f2 <;> rfl
    | cons b rest =>
      cases f2 with
      | zero => simp at h2
      | succ f2' =>
        rw [utf8DecodeLoop, utf8DecodeLoop]
        congr 1
        have hlen := utf8Step_len b rest
        rw [List.length_cons] at h1 h2
        exact ih _ _ (by omega) (by omega)

theorem decode_cons (b : Nat) (rest : List Nat) :
    utf8DecodeReplace (b :: rest) =
      (utf8Step b rest).1 :: utf8DecodeReplace (utf8Step b rest).2 := by
  rw [utf8DecodeReplace, utf8DecodeReplace, List.length_cons, utf8DecodeLoop]
  congr 1
  exact utf8DecodeLoop_fuel_eq _ _ _ (utf8Step_len b rest) le_rfl

theorem utf8Step_ascii (b : Nat) (rest : List Nat) (h : b < 0x80) :
    utf8Step b rest = (Char.ofNat b, rest) := by
  rw [utf8Step.eq_def, if_pos h]

theorem utf8Step_two (b c1 : Nat) (r : List Nat) (h1 : 0xC2 ≤ b) (h2 : b ≤ 0xDF)
    (h3 : isCont c1 = true) : utf8Step b (c1 :: r) = (char2 b c1, r) := by
  rw [utf8Step.eq_def, if_neg (by omega), if_neg (by omega), if_pos h2]
  simp [h3]

theorem utf8Step_three (b c1 c2 : Nat) (r : List Nat) (h1 : 0xE0 ≤ b) (h2 : b ≤ 0xEF)
    (h3 : cont3ok b c1 = true) (h4 : isCont c2 = true) :
    utf8Step b (c1 :: c2 :: r) = (char3 b c1 c2, r) := by
  rw [utf8Step.eq_def, if_neg (by omega), if_neg (by omega), if_neg (by omega), if_pos h2]
  simp [h3, h4]

theorem utf8Step_four (b c1 c2 c3 : Nat) (r : List Nat) (h1 : 0xF0 ≤ b) (h2 : b ≤ 0xF4)
    (h3 : cont4ok b c1 = true) (h4 : isCont c2 = true) (h5 : isCont c3 = true) :
    utf8Step b (c1 :: c2 :: c3 :: r) = (char4 b c1 c2 c3, r) := by
  rw [utf8Step.eq_def, if_neg (by omega), if_neg (by omega), if_neg (by omega),
    if_neg (by omega), if_pos h2]
  simp [h3, h4, h5]

theorem decode_encodeChar (ch : Char) (r : List Nat) :
    utf8DecodeReplace (utf8EncodeChar ch ++ r) = ch :: utf8DecodeReplace r := by
  have hv : ch.toNat < 0xd800 ∨ (0xdfff < ch.toNat ∧ ch.toNat < 0x110000) := ch.valid
  by_cases ha : ch.toNat < 0x80
  · rw [utf8EncodeChar]
    simp only [if_pos ha, List.cons_append, List.nil_append]
    rw [decode_cons, utf8Step_ascii _ _ ha]
    simp [Char.ofNat_toNat]
  · by_cases hb : ch.toNat < 0x800
    · rw [utf8EncodeChar]
      simp only [if_neg ha, if_pos hb, List.cons_append, List.nil_append]
      rw [decode_cons, utf8Step_two _ _ _ (by omega) (by omega)
        (by simp only [isCont, decide_eq_true_eq]; omega)]
      have harg : (0xC0 + ch.toNat / 0x40 - 0xC0) * 0x40 + (0x80 + ch.toNat % 0x40 - 0x80) =
          ch.toNat := by omega
      rw [char2, harg, Char.ofNat_toNat]
    · by_cases hc : ch.toNat < 0x10000
      · rw [utf8EncodeChar]
        simp only [if_neg ha, if_neg hb, if_pos hc, List.cons_append, List.nil_append]
        have h3 : cont3ok (0xE0 + ch.toNat / 0x1000) (0x80 + ch.toNat / 0x40 % 0x40) = true := by
          rcases hv with hv1 | ⟨hv2, _⟩
          · rw [cont3ok]
            split_ifs with he1 he2 <;> simp only [isCont, decide_eq_true_eq] <;> omega
          · rw [cont3ok]
            split_ifs with he1 he2 <;> simp only [isCont, decide_eq_true_eq] <;> omega
        rw [decode_cons, utf8Step_three _ _ _ _ (by omega) (by omega) h3
          (by simp only [isCont, decide_eq_true_eq]; omega)]
        have harg : (0xE0 + ch.toNat / 0x1000 - 0xE0) * 0x1000 +
            (0x80 + ch.toNat / 0x40 % 0x40 - 0x80) * 0x40 +
            (0x80 + ch.toNat % 0x40 - 0x80) = ch.toNat := by omega
        rw [char3, harg, Char.ofNat_toNat]
      · rw [utf8EncodeChar]
        simp only [if_neg ha, if_neg hb, if_neg hc, List.cons_append, List.nil_append]
        have hd : ch.toNat < 0x110000 := by
          rcases hv with hv1 | ⟨_, hv3⟩
          · omega
          · exact hv3
        have h3 : cont4ok (0xF0 + ch.toNat / 0x40000) (0x80 + ch.toNat / 0x1000 % 0x40) = true := by
          rw [cont4ok]
          split_ifs with he1 he2 <;> simp only [isCont, decide_eq_true_eq] <;> omega
        rw [decode_cons, utf8Step_four _ _ _ _ _ (by omega) (by omega) h3
          (by simp only [isCont, decide_eq_true_eq]; omega)
          (by simp only [isCont, decide_eq_true_eq]; omega)]
        have harg : (0xF0 + ch.toNat / 0x40000 - 0xF0) * 0x40000 +
            (0x80 + ch.toNat / 0x1000 % 0x40 - 0x80) * 0x1000 +
            (0x80 + ch.toNat / 0x40 % 0x40 - 0x80) * 0x40 +
            (0x80 + ch.toNat % 0x40 - 0x80) = ch.toNat := by omega
        rw [char4, harg, Char.ofNat_toNat]

theorem decode_encode_append (s : List Char) (r : List Nat) :
    utf8DecodeReplace (utf8Encode s ++ r) = s ++ utf8DecodeReplace r := by
  induction s with
  | nil => simp [utf8Encode]
  | cons c s ih =>
    rw [utf8Encode, List.append_assoc, decode_encodeChar, ih]
    rfl

theorem decode_encode (s : List Char) : utf8DecodeReplace (utf8Encode s) = s := by
  have h := decode_encode_append s []
  rw [List.append_nil] at h
  rw [h, show utf8DecodeReplace [] = [] from rfl, List.append_nil]

theorem joinHead_ne_nil (x : List Char) (ps : List (List Char)) : joinHead x ps ≠ [] := by
  cases ps <;> simp [joinHead]

theorem splitNL_append (a b : List Char) :
    splitNL (a ++ b) =
      (splitNL a).dropLast ++ joinHead ((splitNL a).getLastD []) (splitNL b) := by
  induction a with
  | nil =>
    cases hb : splitNL b with
    | nil => exact absurd hb (splitNL_ne_nil b)
    | cons p ps => simp [splitNL, joinHead, hb]
  | cons c a ih =>
    by_cases hc : c = '\n'
    · subst hc
      rw [List.cons_append, splitNL, if_pos rfl, ih, splitNL, if_pos rfl]
      cases ha : splitNL a with
      | nil => exact absurd ha (splitNL_ne_nil a)
      | cons q qs => simp [List.dropLast, List.getLastD]
    · rw [List.cons_append, splitNL, if_neg hc, ih, splitNL, if_neg hc]
      cases ha : splitNL a with
      | nil => exact absurd ha (splitNL_ne_nil a)
      | cons q qs =>
        cases qs with
        | nil =>
          cases hb : splitNL b with
          | nil => exact absurd hb (splitNL_ne_nil b)
          | cons p ps => simp [consHead, joinHead]
        | cons q2 qs2 => simp [consHead, joinHead, List.dropLast, List.getLastD]

theorem splitNL_no_nl_append (x b : List Char) (hx : ('\n') ∉ x) :
    splitNL (x ++ b) = joinHead x (splitNL b) := by
  rw [splitNL_append, splitNL_of_no_nl x hx]
  rfl

theorem getLastD_append_right {α : Type} (u v : List α) (d : α) (h : v ≠ []) :
    (u ++ v).getLastD d = v.getLastD d := by
  cases v with
  | nil => exact absurd rfl h
  | cons a t =>
    simp [List.getLastD_eq_getLast?, List.getLast?_append_of_ne_nil, Option.or_of_isSome]

theorem loop_merge (buf s : List Char) (c2 : List Nat) (rest : List (List Nat)) :
    streamDecodeLoop buf (utf8Encode s :: c2 :: rest) =
      streamDecodeLoop buf ((utf8Encode s ++ c2) :: rest) := by
  have hg : ('\n') ∉ (splitNL (buf ++ s)).getLastD [] := nl_notMem_splitNL_getLastD _
  have hjh : joinHead ((splitNL (buf ++ s)).getLastD [])
      (splitNL (utf8DecodeReplace c2)) ≠ [] := joinHead_ne_nil _ _
  simp only [streamDecodeLoop]
  rw [decode_encode, decode_encode_append, ← List.append_assoc,
    splitNL_append (buf ++ s) (utf8DecodeReplace c2),
    splitNL_no_nl_append _ _ hg,
    List.dropLast_append_of_ne_nil _ hjh,
    getLastD_append_right _ _ _ hjh,
    processLines_append]
  simp only [List.getLastD_eq_getLast?]
  by_cases d1 : (processLines (splitNL (buf ++ s)).dropLast).2
  · simp [d1]
  · by_cases d2 : (processLines (joinHead ((splitNL (buf ++ s)).getLast?.getD [])
        (splitNL (utf8DecodeReplace c2))).dropLast).2
    · simp [d1, d2]
    · simp [d1, d2, List.append_assoc]

theorem utf8Encode_append (s t : List Char) :
    utf8Encode (s ++ t) = utf8Encode s ++ utf8Encode t := by
  induction s with
  | nil => rfl
  | cons c s ih => rw [List.cons_append, utf8Encode, utf8Encode, ih, List.append_assoc]

theorem loop_join_cons : ∀ (chunks : List (List Nat)) (s : List Char) (buf : List Char),
    (∀ c ∈ chunks, ∃ t : List Char, c = utf8Encode t) →
    streamDecodeLoop buf (utf8Encode s :: chunks) =
      streamDecodeLoop buf [utf8Encode s ++ chunks.flatten] := by
  intro chunks
  induction chunks with
  | nil =>
    intro s buf _
    rw [List.flatten_nil, List.append_nil]
  | cons c chunks ih =>
    intro s buf h
    obtain ⟨t, rfl⟩ := h c (List.mem_cons_self c chunks)
    rw [loop_merge,
      show utf8Encode s ++ utf8Encode t = utf8Encode (s ++ t) from (utf8Encode_append s t).symm,
      ih (s ++ t) buf (fun c hc => h c (List.mem_cons_of_mem _ hc)),
      utf8Encode_append, List.flatten_cons, List.append_assoc]

/-- C1 counterexample: the two-byte UTF-8 character `é` (0xC3 0xA9) inside
the stream `data: {"x":"é"}\n` is split across two chunk boundaries.  The
per-chunk `decode('utf-8', errors='replace')` (src/client.py line 140)
turns each half into U+FFFD, so the decoder emits `{"x":"��"}`
for the chunked delivery but `{"x":"é"}` for the single-chunk delivery:
the emitted sequences differ, refuting chunk-boundary independence as
claimed. -/
theorem C1_counterexample :
    streamDecode [utf8Encode (toL "data: \x7b\"x\":\"") ++ [0xC3],
        [0xA9] ++ utf8Encode (toL "\"\x7d\n")] ≠
      streamDecode [(utf8Encode (toL "data: \x7b\"x\":\"") ++ [0xC3]) ++
        ([0xA9] ++ utf8Encode (toL "\"\x7d\n"))] := by
  intro h
  have h1 : streamDecode [utf8Encode (toL "data: \x7b\"x\":\"") ++ [0xC3],
      [0xA9] ++ utf8Encode (toL "\"\x7d\n")] =
      [Json.obj [(toL "x", Json.str [repl, repl])]] := rfl
  have h2 : streamDecode [(utf8Encode (toL "data: \x7b\"x\":\"") ++ [0xC3]) ++
      ([0xA9] ++ utf8Encode (toL "\"\x7d\n"))] =
      [Json.obj [(toL "x", Json.str [Char.ofNat 0xE9])]] := rfl
  rw [h1, h2] at h
  injection h with h3 _
  injection h3 with hf
  injection hf with hp _
  have hv : Json.str [repl, repl] = Json.str [Char.ofNat 0xE9] := congrArg Prod.snd hp
  injection hv with hs
  exact absurd hs (by decide)

/-- C1 (amended): chunk-boundary independence holds for every splitting in
which each chunk is a well-formed UTF-8 byte sequence (no multi-byte
character is split across a chunk boundary): the decoder then emits the
same sequence as when all bytes arrive in a single chunk.  (The
counterexample shows it fails when a character is split, because each
chunk is decoded separately with replacement.) -/
theorem C1_chunk_boundary_independence (chunks : List (List Nat))
    (h : ∀ c ∈ chunks, ∃ s : List Char, c = utf8Encode s) :
    streamDecode chunks = streamDecode [chunks.flatten] := by
  cases chunks with
  | nil => rfl
  | cons c rest =>
    obtain ⟨s, rfl⟩ := h c (List.mem_cons_self c rest)
    rw [streamDecode, streamDecode,
      loop_join_cons rest s [] (fun c hc => h c (List.mem_cons_of_mem _ hc)),
      List.flatten_cons]

/-- Witness for the amended C1 at a concrete input: a line delivered in two
well-formed pieces decodes as if delivered whole. -/
theorem C1_witness :
    streamDecode [utf8Encode (toL "data: "), utf8Encode (toL "\x7b\"a\":1\x7d\n")] =
      streamDecode [List.flatten [utf8Encode (toL "data: "),
        utf8Encode (toL "\x7b\"a\":1\x7d\n")]] :=
  C1_chunk_boundary_independence _ (by
    intro c hc
    rcases List.mem_cons.mp hc with rfl | hc2
    · exact ⟨toL "data: ", rfl⟩
    · rcases List.mem_cons.mp hc2 with rfl | hc3
      · exact ⟨toL "\x7b\"a\":1\x7d\n", rfl⟩
      · cases hc3)

/-! ## Equivalence of the synchronous and asynchronous clients (C9) -/

theorem async_appendRev_eq (suf : List Char) (ms : List Message) :
    Async.appendRev suf ms = appendRev suf ms := by
  induction ms with
  | nil => rfl
  | cons m rest ih =>
    simp only [Async.appendRev, appendRev]
    rw [ih]

theorem async_processLines_eq (ls : List (List Char)) :
    Async.processLines ls = processLines ls := by
  induction ls with
  | nil => rfl
  | cons l rest ih =>
    simp only [Async.processLines, processLines]
    rw [show Async.processLine l = processLine l from rfl, ih]

theorem async_streamDecodeLoop_eq : ∀ (chunks : List (List Nat)) (buf : List Char),
    Async.streamDecodeLoop buf chunks = streamDecodeLoop buf chunks := by
  intro chunks
  induction chunks with
  | nil => intro buf; rfl
  | cons c rest ih =>
    intro buf
    simp only [Async.streamDecodeLoop, streamDecodeLoop]
    rw [async_processLines_eq, ih]

/-- C9: the blocking client (src/client.py) and the cooperative-suspension
client (src/async_client.py) behave identically on every input: the request
builders produce the same transmitted payload (and the same caller-visible
message list, and the same exception on failure), and the stream decoders
emit the same ordered sequence of parsed values for every chunk sequence. -/
theorem C9_sync_async_equivalent :
    (∀ (model : List Char) (msgs : List Message) (tc : Option ToolChoice)
      (kwargs : List (List Char × Json)),
      Async.createChat model msgs tc kwargs = createChat model msgs tc kwargs) ∧
    (∀ chunks : List (List Nat), Async.streamDecode chunks = streamDecode chunks) := by
  constructor
  · intro model msgs tc kwargs
    have hfun : Async.appendToLastUser = appendToLastUser := by
      funext suf ms
      rw [Async.appendToLastUser, appendToLastUser, async_appendRev_eq]
    cases tc with
    | none => rfl
    | some t =>
      cases t <;>
        simp only [Async.createChat, createChat,
          show Async.toolNameJson = toolNameJson from rfl, hfun]
  · intro chunks
    rw [Async.streamDecode, streamDecode, async_streamDecodeLoop_eq]
